import Mathlib

/-!
Verification of the business-hours interval calculator (`calculate_working_hours`
in `chamados.py`) and the ticket-aging logic built on it (`OS700.py`).

Time model: a civil date-time is represented as a number of seconds from an
epoch that falls on a Monday at 00:00:00.  Under this convention
`t / 86400` is the day index, `t % 86400` the second-of-day, and
`(t / 86400) % 7` is exactly Python's `datetime.weekday()` (Monday = 0,
Saturday = 5, Sunday = 6).  All ticket timestamps in the system are parsed
from `DD/MM/YYYY HH:MM:SS` text, so second precision is exact.
-/

namespace OS700

/-- `datetime.combine(current.date() + timedelta(days=1), datetime.min.time())`:
midnight at the start of the next calendar day. -/
def nextDayStart (t : Nat) : Nat := (t / 86400 + 1) * 86400

/-- The `while current < end` loop of `calculate_working_hours`: walks day by
day; on Saturday/Sunday (weekday ≥ 5) skips to the next midnight; on a weekday
adds the overlap of `[current, end)` with the 08:00–12:00 shift
(`28800`–`43200` seconds of day) and with the 13:00–17:00 shift
(`46800`–`61200`), each guarded by `end > shift_start` and
`interval_end > interval_start` as in the source, then advances to the next
midnight. -/
def cwhLoop (e c : Nat) : Nat :=
  if c < e then
    if c / 86400 % 7 ≥ 5 then
      cwhLoop e (nextDayStart c)
    else
      (if e > c / 86400 * 86400 + 28800 then
        (if min e (c / 86400 * 86400 + 43200) > max c (c / 86400 * 86400 + 28800) then
          min e (c / 86400 * 86400 + 43200) - max c (c / 86400 * 86400 + 28800)
        else 0)
      else 0)
      + (if e > c / 86400 * 86400 + 46800 then
        (if min e (c / 86400 * 86400 + 61200) > max c (c / 86400 * 86400 + 46800) then
          min e (c / 86400 * 86400 + 61200) - max c (c / 86400 * 86400 + 46800)
        else 0)
      else 0)
      + cwhLoop e (nextDayStart c)
  else 0
termination_by e - c
decreasing_by
  all_goals simp only [nextDayStart]; omega

/-- `calculate_working_hours(start, end)` from `chamados.py`: returns the zero
duration when `start >= end`, otherwise runs the day-by-day loop.  Result in
seconds. -/
def calculate_working_hours (start e : Nat) : Nat :=
  if start ≥ e then 0 else cwhLoop e start

/-! ### Specification-side cumulative-work function

`workUpTo t` is the amount of working time in `[0, t)`; the closed form
`calculate_working_hours s e = workUpTo e - workUpTo s` is proved below and
drives all the interval properties. -/

/-- Length of `[0, x) ∩ [a, b)`. -/
def clip (x a b : Nat) : Nat := min x b - min x a

/-- Working seconds of one day that lie before second-of-day `x`:
overlap with 08:00–12:00 plus overlap with 13:00–17:00. -/
def dayWorkUpTo (x : Nat) : Nat := clip x 28800 43200 + clip x 46800 61200

/-- Total working seconds of all whole days with index `< d`
(28800 = 8 h per weekday, 0 per weekend day). -/
def daysWork : Nat → Nat
  | 0 => 0
  | d + 1 => daysWork d + (if d % 7 ≥ 5 then 0 else 28800)

/-- Working seconds in `[0, t)`. -/
def workUpTo (t : Nat) : Nat :=
  daysWork (t / 86400) + (if t / 86400 % 7 ≥ 5 then 0 else dayWorkUpTo (t % 86400))

lemma dayWorkUpTo_mono {x y : Nat} (h : x ≤ y) : dayWorkUpTo x ≤ dayWorkUpTo y := by
  simp only [dayWorkUpTo, clip]; omega

lemma dayWorkUpTo_le (x : Nat) : dayWorkUpTo x ≤ 28800 := by
  simp only [dayWorkUpTo, clip]; omega

lemma daysWork_succ (d : Nat) :
    daysWork (d + 1) = daysWork d + (if d % 7 ≥ 5 then 0 else 28800) := rfl

lemma daysWork_mono : ∀ {d d' : Nat}, d ≤ d' → daysWork d ≤ daysWork d' := by
  intro d d' h
  induction d' with
  | zero => simp_all
  | succ n ih =>
    rcases Nat.lt_or_ge d (n + 1) with hlt | hge
    · exact le_trans (ih (Nat.lt_succ_iff.mp hlt)) (by rw [daysWork_succ]; omega)
    · have : d = n + 1 := le_antisymm h hge
      subst this; exact le_refl _

/-- `workUpTo` is monotone. -/
lemma workUpTo_mono {t t' : Nat} (h : t ≤ t') : workUpTo t ≤ workUpTo t' := by
  unfold workUpTo
  rcases Nat.lt_or_ge (t / 86400) (t' / 86400) with hd | hd
  · have h1 : daysWork (t / 86400) + (if t / 86400 % 7 ≥ 5 then 0 else dayWorkUpTo (t % 86400))
        ≤ daysWork (t / 86400 + 1) := by
      rw [daysWork_succ]
      have := dayWorkUpTo_le (t % 86400)
      split <;> omega
    have h2 : daysWork (t / 86400 + 1) ≤ daysWork (t' / 86400) := daysWork_mono hd
    omega
  · have hde : t / 86400 = t' / 86400 := le_antisymm (Nat.div_le_div_right h) hd
    rw [hde]
    have hm : t % 86400 ≤ t' % 86400 := by omega
    have := dayWorkUpTo_mono hm
    split <;> omega

lemma workUpTo_nextDayStart (c : Nat) :
    workUpTo (nextDayStart c) =
      daysWork (c / 86400) + (if c / 86400 % 7 ≥ 5 then 0 else 28800) := by
  unfold workUpTo nextDayStart
  have h1 : (c / 86400 + 1) * 86400 / 86400 = c / 86400 + 1 := by omega
  have h2 : (c / 86400 + 1) * 86400 % 86400 = 0 := by omega
  rw [h1, h2]
  have h3 : dayWorkUpTo 0 = 0 := rfl
  rw [daysWork_succ, h3, ite_self]
  split <;> omega

/-- `workUpTo` is 1-Lipschitz within one day. -/
lemma workUpTo_lipschitz_same_day {t t' : Nat} (h : t ≤ t')
    (hd : t / 86400 = t' / 86400) : workUpTo t' ≤ workUpTo t + (t' - t) := by
  unfold workUpTo
  rw [hd]
  have hm : t % 86400 ≤ t' % 86400 := by omega
  have hx : t' % 86400 - t % 86400 ≤ t' - t := by omega
  have hl : dayWorkUpTo (t' % 86400) ≤ dayWorkUpTo (t % 86400) + (t' % 86400 - t % 86400) := by
    simp only [dayWorkUpTo, clip]; omega
  split <;> omega

/-- Crossing one midnight costs at least as much wall-clock time as work time. -/
lemma workUpTo_lipschitz_step (t : Nat) :
    workUpTo (nextDayStart t) ≤ workUpTo t + (nextDayStart t - t) := by
  rw [workUpTo_nextDayStart]
  unfold workUpTo nextDayStart
  have h1 : dayWorkUpTo (t % 86400) ≥ t % 86400 - 57600 := by
    simp only [dayWorkUpTo, clip]; omega
  have h2 : t % 86400 < 86400 := by omega
  split <;> omega

lemma workUpTo_lipschitz_aux (n : Nat) :
    ∀ t t' : Nat, t ≤ t' → t' / 86400 = t / 86400 + n →
      workUpTo t' ≤ workUpTo t + (t' - t) := by
  induction n with
  | zero =>
    intro t t' h hd
    exact workUpTo_lipschitz_same_day h (by omega)
  | succ k ih =>
    intro t t' h hd
    have hlt : t / 86400 < t' / 86400 := by omega
    have hnext : nextDayStart t ≤ t' := by simp only [nextDayStart]; omega
    have hdiv : nextDayStart t / 86400 = t / 86400 + 1 := by
      simp only [nextDayStart]; omega
    have htail := ih (nextDayStart t) t' hnext (by omega)
    have hstep := workUpTo_lipschitz_step t
    have hts : t ≤ nextDayStart t := by simp only [nextDayStart]; omega
    omega

/-- `workUpTo` is 1-Lipschitz: business time in an interval never exceeds
wall-clock time. -/
lemma workUpTo_lipschitz {t t' : Nat} (h : t ≤ t') :
    workUpTo t' ≤ workUpTo t + (t' - t) := by
  have hd : t' / 86400 = t / 86400 + (t' / 86400 - t / 86400) := by omega
  exact workUpTo_lipschitz_aux (t' / 86400 - t / 86400) t t' h hd

/-- The recursion equation of the loop (its `while` unfolding). -/
lemma cwhLoop_unfold (e c : Nat) :
    cwhLoop e c =
      if c < e then
        if c / 86400 % 7 ≥ 5 then
          cwhLoop e (nextDayStart c)
        else
          (if e > c / 86400 * 86400 + 28800 then
            (if min e (c / 86400 * 86400 + 43200) > max c (c / 86400 * 86400 + 28800) then
              min e (c / 86400 * 86400 + 43200) - max c (c / 86400 * 86400 + 28800)
            else 0)
          else 0)
          + (if e > c / 86400 * 86400 + 46800 then
            (if min e (c / 86400 * 86400 + 61200) > max c (c / 86400 * 86400 + 46800) then
              min e (c / 86400 * 86400 + 61200) - max c (c / 86400 * 86400 + 46800)
            else 0)
          else 0)
          + cwhLoop e (nextDayStart c)
      else 0 := by
  rw [cwhLoop]

/-- Skipping a weekend day adds no work. -/
lemma workUpTo_weekend_step (c : Nat) (hw : c / 86400 % 7 ≥ 5) :
    workUpTo (nextDayStart c) = workUpTo c := by
  rw [workUpTo_nextDayStart, if_pos hw]
  unfold workUpTo
  rw [if_pos hw]

set_option maxHeartbeats 1600000 in
/-- The loop computes the work accumulated between `c` and `e`
(with truncated subtraction this needs no side condition). -/
lemma cwhLoop_eq_aux (k : Nat) :
    ∀ e c : Nat, e - c ≤ k → cwhLoop e c = workUpTo e - workUpTo c := by
  induction k with
  | zero =>
    intro e c h
    rw [cwhLoop_unfold, if_neg (by omega)]
    have := workUpTo_mono (show e ≤ c by omega)
    omega
  | succ k ih =>
    intro e c h
    rcases Nat.lt_or_ge c e with hce | hce
    case inr =>
      rw [cwhLoop_unfold, if_neg (by omega)]
      have := workUpTo_mono hce
      omega
    case inl =>
    rw [cwhLoop_unfold, if_pos hce]
    have hprog : c < nextDayStart c := by simp only [nextDayStart]; omega
    have hrec := ih e (nextDayStart c) (by omega)
    rcases Nat.lt_or_ge (c / 86400 % 7) 5 with hw | hw
    case inr =>
      rw [if_pos hw, hrec, workUpTo_weekend_step c hw]
    case inl =>
    rw [if_neg (by omega), hrec]
    have hWnds : workUpTo (nextDayStart c) = daysWork (c / 86400) + 28800 := by
      rw [workUpTo_nextDayStart, if_neg (by omega)]
    have hWc : workUpTo c = daysWork (c / 86400) + dayWorkUpTo (c % 86400) := by
      unfold workUpTo
      rw [if_neg (by omega)]
    rcases Nat.lt_or_ge e (nextDayStart c) with hsmall | hbig
    case inr =>
      have hmono1 : daysWork (c / 86400) + 28800 ≤ workUpTo e := by
        rw [← hWnds]; exact workUpTo_mono hbig
      simp only [nextDayStart] at hbig
      simp only [dayWorkUpTo, clip] at hWc
      rw [hWnds, hWc]
      split_ifs <;> omega
    case inl =>
      have hde : e / 86400 = c / 86400 := by
        simp only [nextDayStart] at hsmall; omega
      have hWe : workUpTo e = daysWork (c / 86400) + dayWorkUpTo (e % 86400) := by
        unfold workUpTo
        rw [hde, if_neg (by omega)]
      simp only [nextDayStart] at hsmall
      simp only [dayWorkUpTo, clip] at hWc hWe
      rw [hWnds, hWc, hWe]
      split_ifs <;> omega

/-- Closed form: `calculate_working_hours s e` is the truncated difference of
the cumulative-work function at the endpoints. -/
lemma cwh_eq (s e : Nat) :
    calculate_working_hours s e = workUpTo e - workUpTo s := by
  unfold calculate_working_hours
  rcases Nat.lt_or_ge s e with hse | hse
  · rw [if_neg (by omega)]
    exact cwhLoop_eq_aux (e - s) e s (le_refl _)
  · rw [if_pos hse]
    have := workUpTo_mono (show e ≤ s from hse)
    omega

/-! ### Ticket model and aging evaluator (`OS700.py`) -/

/-- A ticket row as the aging code sees it: each timestamp field holds the
parsed value, or `none` when the field is null or fails to parse
(`datetime.strptime` raising, `pd.to_datetime(..., errors="coerce")`
yielding `NaT`). -/
structure Ticket where
  hora_abertura : Option Nat
  hora_fechamento : Option Nat
deriving DecidableEq

/-- A Python `datetime` value as the callers hand it to the calculator:
its civil instant in seconds plus whether it carries a `tzinfo`
(`datetime.now(FORTALEZA_TZ)` is aware; `datetime.strptime` without `%z`
is naive). -/
structure PyDateTime where
  seconds : Nat
  aware : Bool
deriving DecidableEq

/-- `calculate_working_hours` as the program actually invokes it, with
Python's timezone semantics explicit.  Comparing a naive with an aware
`datetime` raises `TypeError`, so the source's first statement
`if start >= end` raises on a mixed pair.  On a naive pair the walk is
`cwhLoop`.  On an aware pair with `start < end`, the loop body ends with
`current = datetime.combine(current.date() + timedelta(days=1),
datetime.min.time())`, which is naive (`datetime.min.time()` has no
`tzinfo`), so the next `while current < end` check raises `TypeError` too. -/
def calculate_working_hours_py (start e : PyDateTime) : Except Unit Nat :=
  if start.aware ≠ e.aware then Except.error ()
  else if e.seconds ≤ start.seconds then Except.ok 0
  else if start.aware then Except.error ()
  else Except.ok (cwhLoop e.seconds start.seconds)

/-- The `atrasados` test of `dashboard_page` for one ticket (the literal 48
generalized to a parameter): the ticket counts iff `hora_fechamento` is null
and the `try` body completes with `tempo_util > timedelta(hours=threshold)`.
A `strptime` failure, or the `TypeError` from comparing the naive `abertura`
with the timezone-aware `agora_local = datetime.now(FORTALEZA_TZ)`, is
swallowed by the bare `except: pass` and the ticket does not count. -/
def dashboard_overdue_flag (t : Ticket) (nowSec thresholdHours : Nat) : Bool :=
  match t.hora_fechamento with
  | some _ => false
  | none =>
    match t.hora_abertura with
    | none => false
    | some ab =>
      match calculate_working_hours_py ⟨ab, false⟩ ⟨nowSec, true⟩ with
      | Except.error _ => false
      | Except.ok secs => secs > thresholdHours * 3600

/-- `_tempo_uteis_seg` of `relatorios_page`: business-seconds resolution
duration of a row, `none` (`NaN`) unless `hora_abertura` parses and
`fechamento_dt` is not `NaT`. -/
def tempo_uteis_seg (t : Ticket) : Option Nat :=
  match t.hora_abertura, t.hora_fechamento with
  | some ab, some fe => some (calculate_working_hours ab fe)
  | _, _ => none

/-- The non-`NaN` entries of the `tempo_uteis_seg` column. -/
def validDurations (ts : List Ticket) : List Nat := ts.filterMap tempo_uteis_seg

/-- `fechados = total - abertos`, where a row is `em_aberto` iff its
`fechamento_dt` is `NaT`. -/
def fechadosCount (ts : List Ticket) : Nat :=
  (ts.filter (fun t => t.hora_fechamento.isSome)).length

/-- The report-window filter that `relatorios_page` applies before any
aggregate: `df = df[(df["abertura_dt"] >= start_dt) & (df["abertura_dt"] <=
end_dt)]`.  A row whose `hora_abertura` fails to parse has
`abertura_dt = NaT`, and every comparison against `NaT` is `False`, so such a
row is dropped here. -/
def dateFilter (startW endW : Nat) (ts : List Ticket) : List Ticket :=
  ts.filter (fun t =>
    match t.hora_abertura with
    | none => false
    | some ab => decide (startW ≤ ab) && decide (ab ≤ endW))

/-- The `TMA` computation of `relatorios_page`, in business seconds, on the
page's input: the date filter runs first, then
`tma_h = (mean or 0) / 3600 if fechados > 0 else None` over the surviving
rows.  `none` models the absent result (`None`, rendered "—"; the page's
early `Sem dados` return on an empty frame likewise shows no value);
`some none` models the `NaN` a pandas mean produces over an all-`NaN`
selection; `some (some q)` is the arithmetic mean of the valid durations
(pandas `mean` skips `NaN` entries in both numerator and denominator).  The
C9 theorem proves the `some none` branch unreachable: every filtered row's
opening timestamp parses, so every closed row has a computable duration. -/
def averageResolutionSec (startW endW : Nat) (ts : List Ticket) : Option (Option ℚ) :=
  if 0 < fechadosCount (dateFilter startW endW ts) then
    some (if (validDurations (dateFilter startW endW ts)).length = 0 then none
      else some (((validDurations (dateFilter startW endW ts)).map
          (fun n : Nat => (n : ℚ))).sum
        / ((validDurations (dateFilter startW endW ts)).length : ℚ)))
  else none

/-! Sanity checks against the concrete scenarios of the spec (day 0 is a
Monday; seconds from epoch). -/

example : calculate_working_hours (32400) (39600) = 7200 := by
  rw [cwh_eq]; decide

example : calculate_working_hours (4 * 86400 + 59400) (7 * 86400 + 32400) = 5400 := by
  rw [cwh_eq]; decide

example : calculate_working_hours (45000) (48600) = 1800 := by
  rw [cwh_eq]; decide

example : calculate_working_hours (21600) (72000) = 28800 := by
  rw [cwh_eq]; decide

example : calculate_working_hours (5 * 86400 + 36000) (6 * 86400 + 64800) = 0 := by
  rw [cwh_eq]; decide

example : calculate_working_hours 28800 (2 * 86400 + 28800) = 57600 := by
  rw [cwh_eq]; decide

/-! ### Helper lemmas for the aggregate claims -/

lemma daysWork_congr : ∀ a b : Nat, a ≤ b → (∀ d, a ≤ d → d < b → d % 7 ≥ 5) →
    daysWork b = daysWork a := by
  intro a b
  induction b with
  | zero =>
    intro hab _
    interval_cases a
    rfl
  | succ n ih =>
    intro hab hwk
    rcases Nat.lt_or_ge a (n + 1) with hlt | hge
    · have h1 : a ≤ n := Nat.lt_succ_iff.mp hlt
      rw [daysWork_succ, if_pos (hwk n h1 (Nat.lt_succ_self n))]
      rw [ih h1 (fun d hd1 hd2 => hwk d hd1 (Nat.lt_succ_of_lt hd2))]
      omega
    · have : a = n + 1 := le_antisymm hab hge
      rw [this]

lemma daysWork_add_week (d : Nat) : daysWork (d + 7) = daysWork d + 144000 := by
  induction d with
  | zero => decide
  | succ n ih =>
    have hsh : n + 1 + 7 = n + 7 + 1 := by omega
    rw [hsh, daysWork_succ, Nat.add_mod_right, ih, daysWork_succ]
    omega

lemma workUpTo_add_week (t : Nat) : workUpTo (t + 604800) = workUpTo t + 144000 := by
  unfold workUpTo
  have h1 : (t + 604800) / 86400 = t / 86400 + 7 := by omega
  have h2 : (t + 604800) % 86400 = t % 86400 := by omega
  rw [h1, h2, daysWork_add_week, Nat.add_mod_right]
  split <;> omega

lemma tempo_uteis_seg_eq_none (t : Ticket) :
    tempo_uteis_seg t = none ↔
      t.hora_abertura = none ∨ t.hora_fechamento = none := by
  cases t with
  | mk ab fe => cases ab <;> cases fe <;> simp [tempo_uteis_seg]

lemma fechadosCount_eq_zero (ts : List Ticket) :
    fechadosCount ts = 0 ↔ ∀ t ∈ ts, t.hora_fechamento = none := by
  unfold fechadosCount
  rw [List.length_eq_zero, List.filter_eq_nil_iff]
  constructor
  · intro h t ht
    have := h t ht
    simp [Option.isSome_iff_ne_none] at this
    exact this
  · intro h t ht
    simp [Option.isSome_iff_ne_none, h t ht]

/-! ### Claim theorems -/

/-- C2: for every pair of civil date-times with `start >= end`,
`calculate_working_hours` returns the zero duration (and, being a total
function, raises no error). -/
theorem C2_inverted_interval_zero (start e : Nat) (h : e ≤ start) :
    calculate_working_hours start e = 0 := by
  unfold calculate_working_hours
  rw [if_pos h]

theorem C2_inverted_interval_zero_witness :
    (3 : Nat) ≤ 10 ∧ calculate_working_hours 10 3 = 0 :=
  ⟨by decide, C2_inverted_interval_zero 10 3 (by decide)⟩

/-- C3: for `start < end` lying entirely within a single working interval of
one weekday (both inside 08:00–12:00, or both inside 13:00–17:00, of a day
with weekday < 5), the business-hours duration equals the wall-clock
difference `end - start`. -/
theorem C3_within_single_shift (s e : Nat) (hse : s < e)
    (hwd : s / 86400 % 7 < 5)
    (hshift : (s / 86400 * 86400 + 28800 ≤ s ∧ e ≤ s / 86400 * 86400 + 43200) ∨
      (s / 86400 * 86400 + 46800 ≤ s ∧ e ≤ s / 86400 * 86400 + 61200)) :
    calculate_working_hours s e = e - s := by
  rw [cwh_eq]
  have hde : e / 86400 = s / 86400 := by omega
  unfold workUpTo
  rw [hde, if_neg (by omega), if_neg (by omega)]
  simp only [dayWorkUpTo, clip]
  omega

theorem C3_within_single_shift_witness :
    calculate_working_hours 32400 39600 = 39600 - 32400 :=
  C3_within_single_shift 32400 39600 (by decide) (by decide) (Or.inl (by decide))

/-- C4: when every calendar day from the day of `start` to the day of `end`
is a Saturday or Sunday, the business-hours duration is zero. -/
theorem C4_weekend_only_zero (s e : Nat)
    (hwk : ∀ d : Nat, s / 86400 ≤ d → d ≤ e / 86400 → d % 7 ≥ 5) :
    calculate_working_hours s e = 0 := by
  rw [cwh_eq]
  rcases Nat.lt_or_ge s e with hse | hse
  · have hdd : s / 86400 ≤ e / 86400 := by omega
    have hz := daysWork_congr (s / 86400) (e / 86400) hdd
      (fun d h1 h2 => hwk d h1 (le_of_lt h2))
    unfold workUpTo
    rw [if_pos (hwk (e / 86400) hdd (le_refl _)),
      if_pos (hwk (s / 86400) (le_refl _) hdd), hz]
    omega
  · have := workUpTo_mono (show e ≤ s from hse)
    omega

theorem C4_weekend_only_zero_witness :
    calculate_working_hours (5 * 86400 + 36000) (6 * 86400 + 64800) = 0 :=
  C4_weekend_only_zero (5 * 86400 + 36000) (6 * 86400 + 64800)
    (by intro d h1 h2; omega)

/-- C5: additivity — for `start < mid < end`, the business-hours duration of
the whole interval is the sum of the durations of the two halves. -/
theorem C5_additive (s m e : Nat) (h1 : s < m) (h2 : m < e) :
    calculate_working_hours s e =
      calculate_working_hours s m + calculate_working_hours m e := by
  rw [cwh_eq, cwh_eq, cwh_eq]
  have hsm := workUpTo_mono (le_of_lt h1)
  have hme := workUpTo_mono (le_of_lt h2)
  omega

theorem C5_additive_witness :
    calculate_working_hours 0 405000 =
      calculate_working_hours 0 50000 + calculate_working_hours 50000 405000 :=
  C5_additive 0 50000 405000 (by decide) (by decide)

/-- C6: monotonicity — pulling `start` backward and/or pushing `end` forward
never decreases the business-hours duration. -/
theorem C6_monotone (s e s' e' : Nat) (hs : s' ≤ s) (he : e ≤ e') :
    calculate_working_hours s e ≤ calculate_working_hours s' e' := by
  rw [cwh_eq, cwh_eq]
  have h1 := workUpTo_mono hs
  have h2 := workUpTo_mono he
  omega

theorem C6_monotone_witness :
    calculate_working_hours 32400 39600 ≤ calculate_working_hours 28800 72000 :=
  C6_monotone 32400 39600 28800 72000 (by decide) (by decide)

/-- C7: upper bound — for `start < end` the business-hours duration never
exceeds the wall-clock difference `end - start`. -/
theorem C7_upper_bound (s e : Nat) (h : s < e) :
    calculate_working_hours s e ≤ e - s := by
  rw [cwh_eq]
  have := workUpTo_lipschitz (le_of_lt h)
  omega

theorem C7_upper_bound_witness :
    calculate_working_hours 28800 201600 ≤ 201600 - 28800 :=
  C7_upper_bound 28800 201600 (by decide)

/-- C10: totality and uniformity — the loop's day step strictly advances
(`current < nextDayStart current`, which is why the walk over any span, of
any length, terminates with no special case), and the walk treats every week
alike: shifting both endpoints by exactly one week (604800 s) leaves the
business-hours duration unchanged. -/
theorem C10_total_uniform_walk (s e : Nat) :
    s < nextDayStart s ∧
    calculate_working_hours (s + 604800) (e + 604800) =
      calculate_working_hours s e := by
  constructor
  · simp only [nextDayStart]; omega
  · rw [cwh_eq, cwh_eq]
    have h1 := workUpTo_add_week s
    have h2 := workUpTo_add_week e
    omega

/-- C1 as stated is false: for a ticket opened Monday 08:00 (second 28800 of
the epoch week) still open at Wednesday 08:00 of the same week (second
201600), the business-hours age is not 24 h. -/
theorem C1_counterexample : calculate_working_hours 28800 201600 ≠ 24 * 3600 := by
  rw [cwh_eq]; decide

/-- C1 amended: the business-hours age Mon 08:00 → Wed 08:00 is exactly 16 h
(Monday and Tuesday contribute 8 h each, Wednesday contributes nothing by
08:00), and `dashboard_page` does not count the ticket as overdue under a
24 h threshold — in the program because comparing the naive `abertura` with
the timezone-aware `now` raises `TypeError`, which `except: pass` swallows
before any threshold comparison runs (had the comparison run, 16 h would not
have exceeded 24 h either). -/
theorem C1_amended :
    calculate_working_hours 28800 201600 = 16 * 3600 ∧
    dashboard_overdue_flag ⟨some 28800, none⟩ 201600 24 = false ∧
    calculate_working_hours_py ⟨28800, false⟩ ⟨201600, true⟩ = Except.error () := by
  have hc : calculate_working_hours 28800 201600 = 57600 := by rw [cwh_eq]; decide
  exact ⟨by omega, rfl, rfl⟩

/-- C8: the claimed biconditional is the spec's intent, but the program
violates its "if" direction.  Failing input: an open ticket opened Monday
08:00 (second 28800), `now` = Friday 17:00 (second 406800), threshold 24 h.
Its business-hours age is 40 h > 24 h, so the claim requires
`isOverdue = true`; yet `dashboard_page` never flags it — `now` is
timezone-aware while the parsed `abertura` is naive, so
`calculate_working_hours` raises `TypeError` at its first comparison and the
bare `except: pass` drops the ticket.  A closed ticket is indeed never
flagged. -/
theorem C8_overdue_dead_code :
    calculate_working_hours 28800 406800 = 40 * 3600 ∧
    24 * 3600 < calculate_working_hours 28800 406800 ∧
    calculate_working_hours_py ⟨28800, false⟩ ⟨406800, true⟩ = Except.error () ∧
    dashboard_overdue_flag ⟨some 28800, none⟩ 406800 24 = false ∧
    (∀ (ab : Option Nat) (cl nowSec thresholdHours : Nat),
      dashboard_overdue_flag ⟨ab, some cl⟩ nowSec thresholdHours = false) := by
  have hc : calculate_working_hours 28800 406800 = 144000 := by rw [cwh_eq]; decide
  exact ⟨by omega, by omega, rfl, rfl, fun ab cl nowSec th => rfl⟩

lemma mem_dateFilter_abertura {startW endW : Nat} {t : Ticket}
    {ts : List Ticket} (h : t ∈ dateFilter startW endW ts) :
    t.hora_abertura.isSome := by
  rcases List.mem_filter.mp h with ⟨_, hpred⟩
  cases hab : t.hora_abertura with
  | none => rw [hab] at hpred; simp at hpred
  | some ab => simp [hab]

lemma tempo_uteis_seg_isSome_of {t : Ticket} (ha : t.hora_abertura.isSome)
    (hf : t.hora_fechamento.isSome) : ∃ v, tempo_uteis_seg t = some v := by
  rcases t with ⟨ab, fe⟩
  cases ab with
  | none => simp at ha
  | some a =>
    cases fe with
    | none => simp at hf
    | some f => exact ⟨_, rfl⟩

/-- C9: on the rows that survive `relatorios_page`'s date filter — the
population the TMA actually aggregates, in which every opening timestamp
parses — the average is order-independent; it equals the mean over exactly
the closed rows, open rows and (upstream-dropped) unparsable rows appearing
in neither numerator nor denominator; it is absent precisely when no
considered ticket is closed with a valid duration; and the `NaN` outcome is
unreachable, so absence stays distinct from any numeric mean, zero
included. -/
theorem C9_average_resolution (startW endW : Nat) (ts ts' : List Ticket)
    (hp : ts.Perm ts') :
    averageResolutionSec startW endW ts = averageResolutionSec startW endW ts' ∧
    (averageResolutionSec startW endW ts = none ↔
      ∀ t ∈ dateFilter startW endW ts, tempo_uteis_seg t = none) ∧
    averageResolutionSec startW endW ts ≠ some none ∧
    (∀ q : ℚ, averageResolutionSec startW endW ts = some (some q) →
      q * ((validDurations (dateFilter startW endW ts)).length : ℚ) =
        ((validDurations (dateFilter startW endW ts)).map
          (fun n : Nat => (n : ℚ))).sum ∧
      validDurations (dateFilter startW endW ts) ≠ []) := by
  have hnan : 0 < fechadosCount (dateFilter startW endW ts) →
      (validDurations (dateFilter startW endW ts)).length ≠ 0 := by
    intro hc hl
    have hne : (dateFilter startW endW ts).filter
        (fun t => t.hora_fechamento.isSome) ≠ [] := by
      intro hnil
      unfold fechadosCount at hc
      rw [hnil] at hc
      simp at hc
    rcases List.exists_mem_of_ne_nil _ hne with ⟨t0, ht0⟩
    rcases List.mem_filter.mp ht0 with ⟨ht0df, ht0cl⟩
    rcases tempo_uteis_seg_isSome_of (mem_dateFilter_abertura ht0df) ht0cl
      with ⟨v, hv⟩
    have hmem : v ∈ validDurations (dateFilter startW endW ts) :=
      List.mem_filterMap.mpr ⟨t0, ht0df, hv⟩
    exact List.ne_nil_of_mem hmem (List.length_eq_zero.mp hl)
  refine ⟨?_, ?_, ?_, ?_⟩
  · have hdfp : (dateFilter startW endW ts).Perm (dateFilter startW endW ts') :=
      hp.filter _
    have hf : fechadosCount (dateFilter startW endW ts) =
        fechadosCount (dateFilter startW endW ts') := (hdfp.filter _).length_eq
    have hv : (validDurations (dateFilter startW endW ts)).Perm
        (validDurations (dateFilter startW endW ts')) := hdfp.filterMap _
    have hm : ((validDurations (dateFilter startW endW ts)).map
        (fun n : Nat => (n : ℚ))).Perm
        ((validDurations (dateFilter startW endW ts')).map
          (fun n : Nat => (n : ℚ))) := hv.map _
    unfold averageResolutionSec
    rw [hf, hv.length_eq, hm.sum_eq]
  · constructor
    · intro h
      have hc0 : fechadosCount (dateFilter startW endW ts) = 0 := by
        by_contra hne
        have hc : 0 < fechadosCount (dateFilter startW endW ts) :=
          Nat.pos_of_ne_zero hne
        unfold averageResolutionSec at h
        rw [if_pos hc] at h
        simp at h
      intro t ht
      have hfe : t.hora_fechamento = none :=
        (fechadosCount_eq_zero _).mp hc0 t ht
      exact (tempo_uteis_seg_eq_none t).mpr (Or.inr hfe)
    · intro hall
      have hc0 : fechadosCount (dateFilter startW endW ts) = 0 := by
        apply (fechadosCount_eq_zero _).mpr
        intro t ht
        cases hfe : t.hora_fechamento with
        | none => rfl
        | some f =>
          rcases tempo_uteis_seg_isSome_of (mem_dateFilter_abertura ht)
            (by rw [hfe]; rfl) with ⟨v, hv⟩
          rw [hall t ht] at hv
          simp at hv
      unfold averageResolutionSec
      rw [if_neg (by omega)]
  · intro h
    unfold averageResolutionSec at h
    by_cases hc : 0 < fechadosCount (dateFilter startW endW ts)
    · rw [if_pos hc] at h
      simp only [Option.some.injEq] at h
      by_cases hl : (validDurations (dateFilter startW endW ts)).length = 0
      · exact hnan hc hl
      · rw [if_neg hl] at h
        simp at h
    · rw [if_neg hc] at h
      simp at h
  · intro q hq
    unfold averageResolutionSec at hq
    by_cases hc : 0 < fechadosCount (dateFilter startW endW ts)
    · rw [if_pos hc] at hq
      by_cases hl : (validDurations (dateFilter startW endW ts)).length = 0
      · rw [if_pos hl] at hq
        simp at hq
      · rw [if_neg hl] at hq
        simp only [Option.some.injEq] at hq
        have hlen : ((validDurations (dateFilter startW endW ts)).length : ℚ) ≠ 0 := by
          exact_mod_cast hl
        constructor
        · rw [← hq, div_mul_cancel₀ _ hlen]
        · intro hnil
          apply hl
          rw [hnil]
          rfl
    · rw [if_neg hc] at hq
      simp at hq

theorem C9_average_resolution_witness :
    averageResolutionSec 0 1000000 [⟨some 28800, some 36000⟩, ⟨some 0, none⟩] =
      averageResolutionSec 0 1000000 [⟨some 0, none⟩, ⟨some 28800, some 36000⟩] :=
  (C9_average_resolution 0 1000000 _ _ (List.Perm.swap _ _ _)).1

end OS700
